import Mathlib

/-!
# Verification of the Atlas lifecycle orchestrator

A shallow embedding of `src/packages/atlas/src/atlas.mjs` (class `Atlas`).

Modelling choices:

* A registered component is abstracted by its statically observable
  behaviour: its `observes` declaration, its `internal` flag, and whether
  each of its lifecycle methods (`prepare`, `start`, `stop`) resolves or
  rejects when the orchestrator invokes it.  The JavaScript error value a
  component throws is abstracted as `Error.componentFailure phase alias`,
  which is enough to track error identity (which error reaches the caller).
* The orchestrator's hidden state (`prepared`, `started`, the catalog of
  the three ordered `Map`s, the `observers` map) and its public surfaces
  (`services`, `actions` objects) form `AtlasState`.  Ordered maps become
  association lists preserving insertion order; the public objects become
  lists of the exposed aliases.
* Each lifecycle method becomes a function
  `AtlasState → List Event × AtlasState × Option Error`, returning the
  trace of observable calls made, the state after the call, and `none`
  when the returned promise resolves (with the orchestrator itself) or
  `some e` when it rejects with `e`.  Sequential `await`s become
  sequential composition; a `Promise.all` fan-out over containers whose
  operations settle immediately is modelled by invoking every member of
  the batch (all operations launch before any is awaited) and rejecting
  with the first rejection of the batch.
* For the sequential service loops the trace records, per service, the
  invocation (`startCall` / `stopCall`), the resolution of a successful
  start (`startResolved`) and the `delete this.services[alias]` statement
  (`unexpose`), so ordering claims are statements about the trace.
-/

/-- The behaviourally relevant static data of one registered component
class, as seen from `atlas.mjs`: the static `observes` declaration
(`none` = the property is absent), the static `internal` flag, and
whether each lifecycle method invoked by the orchestrator rejects. -/
structure Component where
  observes : Option String
  internal : Bool
  prepareFails : Bool
  startFails : Bool
  stopFails : Bool
deriving DecidableEq, Repr

/-- One entry of an ordered registry: alias ↦ component. -/
abbrev Entry := String × Component

/-- The hidden catalog (atlas.mjs lines 206-210): three ordered maps,
one per component kind, preserving registration order. -/
structure Catalog where
  hooks : List Entry
  services : List Entry
  actions : List Entry
deriving DecidableEq, Repr

/-- The orchestrator state: the hidden flags and maps plus the public
`services` / `actions` surfaces (lists of exposed aliases). -/
structure AtlasState where
  prepared : Bool
  started : Bool
  catalog : Catalog
  observers : List Entry
  services : List String
  actions : List String
deriving DecidableEq, Repr

/-- The state right after the constructor ran (atlas.mjs lines 199-230)
on an instance on which the given components were then registered:
`prepared`/`started` are false, `observers` is empty, the public
surfaces are empty objects, and the catalog holds the registrations in
insertion order. -/
def AtlasState.init (c : Catalog) : AtlasState :=
  { prepared := false
    started := false
    catalog := c
    observers := []
    services := []
    actions := [] }

/-- Errors surfaced by the orchestrator.  `hookMissingObserves a` is the
`FrameworkError` thrown at atlas.mjs line 344; `componentFailure ph a`
abstracts the error thrown by component `a`'s method `ph`. -/
inductive Error where
  | hookMissingObserves (a : String)
  | componentFailure (phase : String) (a : String)
deriving DecidableEq, Repr

/-- Observable calls the orchestrator makes while running a lifecycle
method. -/
inductive Event where
  | prepareCall (kind a : String)
  | startCall (kind a : String)
  | startResolved (kind a : String)
  | stopCall (kind a : String)
  | unexpose (surface a : String)
  | dispatched (name a : String)
  | logFatal (msg : String)
  | logInfo (msg : String)
deriving DecidableEq, Repr

/-- Modelled from the spec: the private `dispatch` helper (imported from
`./private`, not under `src/`) delivers one lifecycle notification to
each container of the target map, in registration order, awaiting each
sequentially. -/
def dispatch (targets : List Entry) (name : String) : List Event :=
  targets.map (fun p => Event.dispatched name p.1)

/-- Ordered-map update `Map.set` on an ordered map as an association list: overwrite in
place when the key exists, append otherwise. -/
def setEntry (m : List Entry) (a : String) (c : Component) : List Entry :=
  if m.any (fun p => p.1 = a) then
    m.map (fun p => if p.1 = a then (a, c) else p)
  else m ++ [(a, c)]

/-- The hook-scan loop of `prepare()` (atlas.mjs lines 342-351): walk the
hook catalog in order; a hook whose `observes` property is absent aborts
the scan with its alias; a hook observing `'atlas'` is added to the
`observers` map.  Returns the observers accumulated so far and the
offending alias, if any. -/
def scanHooks : List Entry → List Entry → List Entry × Option String
  | obs, [] => (obs, none)
  | obs, (a, c) :: rest =>
    match c.observes with
    | none => (obs, some a)
    | some t => scanHooks (if t = "atlas" then setEntry obs a c else obs) rest

/-- One `Promise.all` preparation batch (atlas.mjs lines 354-363): every
container's `prepare` is invoked; the batch rejects with the first
rejection. -/
def prepPhase (kind : String) (items : List Entry) : List Event × Option Error :=
  (items.map (fun p => Event.prepareCall kind p.1),
   (items.find? (fun p => p.2.prepareFails)).map
     (fun p => Error.componentFailure "prepare" p.1))

/-- Modelled from the spec: the private `expose` helper publishes a
prepared instance on the named public surface under its alias, unless
the component's definition is marked `internal`.  The aliases a
preparation batch exposes are those of its non-internal members whose
`prepare` resolved. -/
def exposedOf (items : List Entry) : List String :=
  (items.filter (fun p => !p.2.prepareFails && !p.2.internal)).map (fun p => p.1)

/-- Property assignment `this.surface[a] = instance` on a surface
modelled as its ordered key list: a fresh key is appended, an existing
key keeps its position. -/
def insertAlias (surface : List String) (a : String) : List String :=
  if a ∈ surface then surface else surface ++ [a]

/-- Key deletion `delete this.surface[a]`. -/
def eraseAlias (surface : List String) (a : String) : List String :=
  surface.filter (fun x => x ≠ a)

/-- Method `Atlas#prepare` (atlas.mjs lines 334-369): short-circuit when already
prepared; scan hooks (populating `observers`, throwing on a hook without
`observes`); prepare hooks, then actions, then services, each batch via
`Promise.all`, exposing action and service instances; set
`prepared = true`; dispatch `afterPrepare` to the observers. -/
def prepare (s : AtlasState) : List Event × AtlasState × Option Error :=
  if s.prepared then ([], s, none)
  else
    match scanHooks s.observers s.catalog.hooks with
    | (obs, some a) =>
      ([], { s with observers := obs }, some (Error.hookMissingObserves a))
    | (obs, none) =>
      let s1 := { s with observers := obs }
      let pH := prepPhase "hook" s.catalog.hooks
      match pH.2 with
      | some e => (pH.1, s1, some e)
      | none =>
        let pA := prepPhase "action" s.catalog.actions
        let s2 := { s1 with
          actions := (exposedOf s.catalog.actions).foldl insertAlias s1.actions }
        match pA.2 with
        | some e => (pH.1 ++ pA.1, s2, some e)
        | none =>
          let pS := prepPhase "service" s.catalog.services
          let s3 := { s2 with
            services := (exposedOf s.catalog.services).foldl insertAlias s2.services }
          match pS.2 with
          | some e => (pH.1 ++ pA.1 ++ pS.1, s3, some e)
          | none =>
            let s4 := { s3 with prepared := true }
            (pH.1 ++ pA.1 ++ pS.1 ++ dispatch s4.observers "afterPrepare", s4, none)

/-- The hooks-then-actions container list spread into the `Promise.all`
batches of `start()` (lines 383-386) and `stop()` (lines 427-430), each
entry tagged with its kind. -/
def taggedHookActions (c : Catalog) : List (String × Entry) :=
  c.hooks.map (fun p => ("hook", p)) ++ c.actions.map (fun p => ("action", p))

/-- The `Promise.all` start batch over hooks and actions: every
container's `start` is invoked; the batch rejects with the first
rejection. -/
def parStart (items : List (String × Entry)) : List Event × Option Error :=
  (items.map (fun q => Event.startCall q.1 q.2.1),
   (items.find? (fun q => q.2.2.startFails)).map
     (fun q => Error.componentFailure "start" q.2.1))

/-- The `Promise.all` stop batch over hooks and actions. -/
def parStop (items : List (String × Entry)) : List Event × Option Error :=
  (items.map (fun q => Event.stopCall q.1 q.2.1),
   (items.find? (fun q => q.2.2.stopFails)).map
     (fun q => Error.componentFailure "stop" q.2.1))

/-- The sequential service shutdown loop of `stop()` (atlas.mjs lines
436-446), over an already-reversed service list, threading the public
`services` surface: for each service, first `delete this.services[alias]`,
then invoke the container's `stop`; a rejection is captured into `error`
(overwriting any earlier capture) and the loop continues. -/
def stopServicesLoop : List Entry → List String → List Event × List String × Option Error
  | [], surface => ([], surface, none)
  | (a, c) :: rest, surface =>
    let r := stopServicesLoop rest (eraseAlias surface a)
    (Event.unexpose "services" a :: Event.stopCall "service" a :: r.1, r.2.1,
     if c.stopFails then some (r.2.2.getD (Error.componentFailure "stop" a)) else r.2.2)

/-- Method `Atlas#stop` (atlas.mjs lines 421-465): dispatch `beforeStop` to the
observers; stop hooks and actions via `Promise.all`; stop services
sequentially in reverse registration order, removing each exposed
instance first and retaining only the most recent stop error; delete all
action registrations from the public surface; reset `started` and
`prepared`; dispatch `afterStop` to the hook catalog; log; finally
re-throw the retained service-stop error, if any. -/
def stop (s : AtlasState) : List Event × AtlasState × Option Error :=
  let tB := dispatch s.observers "beforeStop"
  let pP := parStop (taggedHookActions s.catalog)
  match pP.2 with
  | some e => (tB ++ pP.1, s, some e)
  | none =>
    let r := stopServicesLoop s.catalog.services.reverse s.services
    let s1 := { s with
      services := r.2.1
      actions := s.catalog.actions.foldl (fun acc p => eraseAlias acc p.1) s.actions
      started := false
      prepared := false }
    (tB ++ pP.1 ++ r.1 ++ dispatch s.catalog.hooks "afterStop" ++
       [Event.logInfo "atlas:stopped"], s1, r.2.2)

/-- The sequential service startup loop of `start()` (atlas.mjs lines
392-404), in registration order over the service catalog: each
container's `start` is awaited before the next begins; on a rejection
the loop aborts, `this.stop()` is awaited as a rollback, a rollback
rejection is only logged at fatal severity, and the original error is
re-thrown. -/
def startServicesLoop (s : AtlasState) : List Entry → List Event × AtlasState × Option Error
  | [] => ([], s, none)
  | (a, c) :: rest =>
    if c.startFails then
      let r := stop s
      (Event.startCall "service" a :: r.1 ++
         (if r.2.2.isSome then [Event.logFatal "atlas:start:rollback-failure"] else []),
       r.2.1, some (Error.componentFailure "start" a))
    else
      let r := startServicesLoop s rest
      (Event.startCall "service" a :: Event.startResolved "service" a :: r.1, r.2.1, r.2.2)

/-- Method `Atlas#start` (atlas.mjs lines 376-411): await `prepare()`; dispatch
`beforeStart` to the observers; start hooks and actions via
`Promise.all`; start services sequentially in registration order with
rollback on failure; set `started = true`; dispatch `afterStart` to the
observers; log readiness. -/
def start (s : AtlasState) : List Event × AtlasState × Option Error :=
  let p := prepare s
  match p.2.2 with
  | some e => (p.1, p.2.1, some e)
  | none =>
    let s1 := p.2.1
    let tB := dispatch s1.observers "beforeStart"
    let pP := parStart (taggedHookActions s1.catalog)
    match pP.2 with
    | some e => (p.1 ++ tB ++ pP.1, s1, some e)
    | none =>
      let r := startServicesLoop s1 s1.catalog.services
      match r.2.2 with
      | some e => (p.1 ++ tB ++ pP.1 ++ r.1, r.2.1, some e)
      | none =>
        let s3 := { r.2.1 with started := true }
        (p.1 ++ tB ++ pP.1 ++ r.1 ++ dispatch s3.observers "afterStart" ++
           [Event.logInfo "atlas:ready"], s3, none)

/-! ## Trace observations -/

/-- The aliases of an ordered registry, in order. -/
def aliases (l : List Entry) : List String := l.map Prod.fst

/-- The aliases whose container's `start` is invoked with the given kind
tag, in trace order. -/
def startCallsOf (kind : String) (t : List Event) : List String :=
  t.filterMap (fun e =>
    match e with
    | Event.startCall k a => if k = kind then some a else none
    | _ => none)

/-- The aliases whose container's `stop` is invoked with the given kind
tag, in trace order. -/
def stopCallsOf (kind : String) (t : List Event) : List String :=
  t.filterMap (fun e =>
    match e with
    | Event.stopCall k a => if k = kind then some a else none
    | _ => none)

/-- The (kind, alias) pairs whose container's `prepare` is invoked, in
trace order. -/
def prepareCalls (t : List Event) : List (String × String) :=
  t.filterMap (fun e =>
    match e with
    | Event.prepareCall k a => some (k, a)
    | _ => none)

/-- The aliases to which the given lifecycle notification is delivered,
in trace order. -/
def dispatchedTo (name : String) (t : List Event) : List String :=
  t.filterMap (fun e =>
    match e with
    | Event.dispatched n a => if n = name then some a else none
    | _ => none)

/-- The sub-trace of service start events (invocations and resolutions),
in trace order. -/
def serviceStartSeq (t : List Event) : List Event :=
  t.filter (fun e =>
    match e with
    | Event.startCall k _ => k = "service"
    | Event.startResolved k _ => k = "service"
    | _ => false)

/-- The sub-trace of events concerning service alias `a` during
shutdown: its removal from the public surface and the invocation of its
container's `stop`. -/
def shutdownEventsFor (a : String) (t : List Event) : List Event :=
  t.filter (fun e =>
    e = Event.unexpose "services" a || e = Event.stopCall "service" a)

/-! ## Catalog behaviour predicates -/

/-- Every hook's definition carries the static `observes` property. -/
def hooksObserve (c : Catalog) : Bool :=
  c.hooks.all (fun p => p.2.observes.isSome)

/-- No registered component's `prepare` rejects. -/
def noPrepareFailures (c : Catalog) : Bool :=
  (c.hooks ++ c.actions ++ c.services).all (fun p => !p.2.prepareFails)

/-- No hook's or action's `start` rejects. -/
def noParStartFailures (c : Catalog) : Bool :=
  (c.hooks ++ c.actions).all (fun p => !p.2.startFails)

/-- No service's `start` rejects. -/
def noServiceStartFailures (c : Catalog) : Bool :=
  c.services.all (fun p => !p.2.startFails)

/-- No hook's or action's `stop` rejects. -/
def noParStopFailures (c : Catalog) : Bool :=
  (c.hooks ++ c.actions).all (fun p => !p.2.stopFails)

/-- No service's `stop` rejects. -/
def noServiceStopFailures (c : Catalog) : Bool :=
  c.services.all (fun p => !p.2.stopFails)

/-- Some registered container's `stop` rejects — exactly the condition
under which `stop()` rejects (once the service loop is reached), hence
under which a rollback `stop()` inside `start()` rejects. -/
def someStopFailure (c : Catalog) : Bool :=
  (c.hooks ++ c.actions).any (fun p => p.2.stopFails) ||
    c.services.any (fun p => p.2.stopFails)

/-! ## Characterisations of the traces of the sequential loops -/

/-- The trace the sequential service startup loop produces while no
start rejects: per service, the invocation immediately followed by its
resolution, in list order. -/
def serviceLoopTrace : List Entry → List Event
  | [] => []
  | (a, _) :: rest =>
    Event.startCall "service" a :: Event.startResolved "service" a :: serviceLoopTrace rest

/-- The trace the sequential service shutdown loop produces: per
service, the removal from the public surface immediately followed by the
`stop` invocation, in list order. -/
def stopLoopTrace : List Entry → List Event
  | [] => []
  | (a, _) :: rest =>
    Event.unexpose "services" a :: Event.stopCall "service" a :: stopLoopTrace rest

/-- The error the sequential shutdown loop retains: the capture of the
last entry of the walked list whose `stop` rejects (each capture
overwrites the previous one). -/
def retainedError : List Entry → Option Error
  | [] => none
  | (a, c) :: rest =>
    if c.stopFails then
      some ((retainedError rest).getD (Error.componentFailure "stop" a))
    else retainedError rest

/-! ## Sample components and catalogs (used to instantiate the theorems) -/

/-- A hook observing the orchestrator itself; every lifecycle method
resolves. -/
def obsHook : Component :=
  { observes := some "atlas", internal := false, prepareFails := false,
    startFails := false, stopFails := false }

/-- A well-behaved component that does not observe the orchestrator. -/
def okComp : Component :=
  { observes := some "other", internal := false, prepareFails := false,
    startFails := false, stopFails := false }

/-- A hook definition lacking the static `observes` property. -/
def noObsHook : Component :=
  { observes := none, internal := false, prepareFails := false,
    startFails := false, stopFails := false }

/-- A component whose `start` rejects. -/
def startFailing : Component :=
  { observes := some "other", internal := false, prepareFails := false,
    startFails := true, stopFails := false }

/-- A component whose `stop` rejects. -/
def stopFailing : Component :=
  { observes := some "other", internal := false, prepareFails := false,
    startFails := false, stopFails := true }

/-- One observer hook, two well-behaved services, one action. -/
def sampleCat : Catalog :=
  { hooks := [("H", obsHook), ("G", okComp)]
    services := [("A", okComp), ("B", okComp)]
    actions := [("act", okComp)] }

/-- The second of three services fails to start. -/
def failCat : Catalog :=
  { hooks := [("H", obsHook)]
    services := [("A", okComp), ("B", startFailing), ("C", okComp)]
    actions := [("act", okComp)] }

/-- The first and third of three services fail to stop. -/
def stopFailCat : Catalog :=
  { hooks := [("H", obsHook)]
    services := [("A", stopFailing), ("B", okComp), ("C", stopFailing)]
    actions := [("act", okComp)] }

/-- The second hook lacks the `observes` declaration. -/
def badHookCat : Catalog :=
  { hooks := [("H", obsHook), ("X", noObsHook)]
    services := [("A", okComp)]
    actions := [("act", okComp)] }

/-- An orchestrator over `sampleCat` that has been prepared and started:
both flags set, the observer registry holding the observer hook, the
public surfaces populated. -/
def startedState : AtlasState :=
  { prepared := true
    started := true
    catalog := sampleCat
    observers := [("H", obsHook)]
    services := ["A", "B"]
    actions := ["act"] }

theorem stopServicesLoop_trace (l : List Entry) (surface : List String) :
    (stopServicesLoop l surface).1 = stopLoopTrace l := by
  induction l generalizing surface with
  | nil => rfl
  | cons p rest ih =>
    obtain ⟨a, c⟩ := p
    simp [stopServicesLoop, stopLoopTrace, ih]

theorem stopServicesLoop_surface (l : List Entry) (surface : List String) :
    (stopServicesLoop l surface).2.1 =
      l.foldl (fun acc p => eraseAlias acc p.1) surface := by
  induction l generalizing surface with
  | nil => rfl
  | cons p rest ih =>
    obtain ⟨a, c⟩ := p
    simp [stopServicesLoop, ih]

theorem stopServicesLoop_err (l : List Entry) (surface : List String) :
    (stopServicesLoop l surface).2.2 = retainedError l := by
  induction l generalizing surface with
  | nil => rfl
  | cons p rest ih =>
    obtain ⟨a, c⟩ := p
    simp [stopServicesLoop, retainedError, ih]

/-- The retained shutdown error is the failure of the first `stopFails`
entry of the reversed walked list. -/
theorem retainedError_eq (l : List Entry) :
    retainedError l =
      (l.reverse.find? (fun p => p.2.stopFails)).map
        (fun p => Error.componentFailure "stop" p.1) := by
  induction l with
  | nil => rfl
  | cons p rest ih =>
    obtain ⟨a, c⟩ := p
    simp only [retainedError, List.reverse_cons, List.find?_append, ih]
    cases hc : c.stopFails with
    | true =>
      cases h : rest.reverse.find? (fun p => p.2.stopFails) with
      | none => simp [List.find?, hc, h]
      | some q => simp [h]
    | false =>
      simp [List.find?, hc]

theorem startServicesLoop_ok (s : AtlasState) (l : List Entry)
    (h : l.all (fun p => !p.2.startFails) = true) :
    startServicesLoop s l = (serviceLoopTrace l, s, none) := by
  induction l with
  | nil => rfl
  | cons p rest ih =>
    obtain ⟨a, c⟩ := p
    simp only [List.all_cons, Bool.and_eq_true, Bool.not_eq_true'] at h
    simp [startServicesLoop, serviceLoopTrace, h.1, ih h.2]

theorem startServicesLoop_fail (s : AtlasState) (pre post : List Entry)
    (a : String) (c : Component)
    (hpre : pre.all (fun p => !p.2.startFails) = true) (hc : c.startFails = true) :
    startServicesLoop s (pre ++ (a, c) :: post) =
      (serviceLoopTrace pre ++ Event.startCall "service" a :: (stop s).1 ++
         (if (stop s).2.2.isSome then [Event.logFatal "atlas:start:rollback-failure"]
          else []),
       (stop s).2.1, some (Error.componentFailure "start" a)) := by
  induction pre with
  | nil => simp [startServicesLoop, hc, serviceLoopTrace]
  | cons p rest ih =>
    obtain ⟨x, d⟩ := p
    simp only [List.all_cons, Bool.and_eq_true, Bool.not_eq_true'] at hpre
    simp [startServicesLoop, serviceLoopTrace, hpre.1, ih hpre.2]

/-! ## Hook scan and batch-phase lemmas -/

theorem scanHooks_ok (hooks : List Entry) :
    ∀ obs, hooks.all (fun p => p.2.observes.isSome) = true →
      ∃ obs2, scanHooks obs hooks = (obs2, none) := by
  induction hooks with
  | nil => exact fun obs _ => ⟨obs, rfl⟩
  | cons p rest ih =>
    obtain ⟨a, c⟩ := p
    intro obs h
    simp only [List.all_cons, Bool.and_eq_true] at h
    cases ho : c.observes with
    | none => rw [ho] at h; simp at h
    | some t => simpa [scanHooks, ho] using ih _ h.2

theorem scanHooks_fail (hooks : List Entry) (q : Entry)
    (hq : hooks.find? (fun p => p.2.observes.isNone) = some q) :
    ∀ obs, ∃ obs2, scanHooks obs hooks = (obs2, some q.1) := by
  induction hooks with
  | nil => simp at hq
  | cons p rest ih =>
    obtain ⟨a, c⟩ := p
    intro obs
    cases ho : c.observes with
    | none =>
      rw [List.find?_cons_of_pos _ (by simp [ho])] at hq
      obtain rfl : (a, c) = q := by simpa using hq
      exact ⟨obs, by simp [scanHooks, ho]⟩
    | some t =>
      rw [List.find?_cons_of_neg _ (by simp [ho])] at hq
      simpa [scanHooks, ho] using ih hq _

theorem prepPhase_ok (k : String) (items : List Entry)
    (h : items.all (fun p => !p.2.prepareFails) = true) :
    prepPhase k items = (items.map (fun p => Event.prepareCall k p.1), none) := by
  simp only [prepPhase]
  rw [List.find?_eq_none.mpr]
  · rfl
  · intro x hx
    simp only [List.all_eq_true] at h
    simpa using h x hx

theorem parStart_ok (items : List (String × Entry))
    (h : items.all (fun q => !q.2.2.startFails) = true) :
    parStart items = (items.map (fun q => Event.startCall q.1 q.2.1), none) := by
  simp only [parStart]
  rw [List.find?_eq_none.mpr]
  · rfl
  · intro x hx
    simp only [List.all_eq_true] at h
    simpa using h x hx

theorem parStop_ok (items : List (String × Entry))
    (h : items.all (fun q => !q.2.2.stopFails) = true) :
    parStop items = (items.map (fun q => Event.stopCall q.1 q.2.1), none) := by
  simp only [parStop]
  rw [List.find?_eq_none.mpr]
  · rfl
  · intro x hx
    simp only [List.all_eq_true] at h
    simpa using h x hx

theorem tagged_all_start (c : Catalog) (h : noParStartFailures c = true) :
    (taggedHookActions c).all (fun q => !q.2.2.startFails) = true := by
  simp only [noParStartFailures, List.all_append, Bool.and_eq_true, List.all_eq_true] at h
  simp only [taggedHookActions, List.all_append, Bool.and_eq_true, List.all_eq_true,
    List.mem_map]
  constructor
  · rintro q ⟨p, hp, rfl⟩; exact h.1 p hp
  · rintro q ⟨p, hp, rfl⟩; exact h.2 p hp

theorem tagged_all_stop (c : Catalog) (h : noParStopFailures c = true) :
    (taggedHookActions c).all (fun q => !q.2.2.stopFails) = true := by
  simp only [noParStopFailures, List.all_append, Bool.and_eq_true, List.all_eq_true] at h
  simp only [taggedHookActions, List.all_append, Bool.and_eq_true, List.all_eq_true,
    List.mem_map]
  constructor
  · rintro q ⟨p, hp, rfl⟩; exact h.1 p hp
  · rintro q ⟨p, hp, rfl⟩; exact h.2 p hp

/-! ## Characterisations of prepare -/

theorem prepare_of_prepared (s : AtlasState) (h : s.prepared = true) :
    prepare s = ([], s, none) := by
  simp [prepare, h]

theorem prepare_success (s : AtlasState) (hp : s.prepared = false)
    (hO : hooksObserve s.catalog = true) (hP : noPrepareFailures s.catalog = true) :
    ∃ obs, prepare s =
      (s.catalog.hooks.map (fun p => Event.prepareCall "hook" p.1) ++
         s.catalog.actions.map (fun p => Event.prepareCall "action" p.1) ++
         s.catalog.services.map (fun p => Event.prepareCall "service" p.1) ++
         dispatch obs "afterPrepare",
       { s with observers := obs,
                actions := (exposedOf s.catalog.actions).foldl insertAlias s.actions,
                services := (exposedOf s.catalog.services).foldl insertAlias s.services,
                prepared := true },
       none) := by
  simp only [noPrepareFailures, List.all_append, Bool.and_eq_true] at hP
  obtain ⟨⟨hH, hA⟩, hS⟩ := hP
  obtain ⟨obs2, hscan⟩ := scanHooks_ok s.catalog.hooks s.observers hO
  refine ⟨obs2, ?_⟩
  simp [prepare, hp, hscan, prepPhase_ok _ _ hH, prepPhase_ok _ _ hA, prepPhase_ok _ _ hS]

/-! ## Computing trace observations -/

theorem startCallsOf_append (k : String) (t1 t2 : List Event) :
    startCallsOf k (t1 ++ t2) = startCallsOf k t1 ++ startCallsOf k t2 :=
  List.filterMap_append ..

theorem stopCallsOf_append (k : String) (t1 t2 : List Event) :
    stopCallsOf k (t1 ++ t2) = stopCallsOf k t1 ++ stopCallsOf k t2 :=
  List.filterMap_append ..

theorem prepareCalls_append (t1 t2 : List Event) :
    prepareCalls (t1 ++ t2) = prepareCalls t1 ++ prepareCalls t2 :=
  List.filterMap_append ..

theorem dispatchedTo_append (n : String) (t1 t2 : List Event) :
    dispatchedTo n (t1 ++ t2) = dispatchedTo n t1 ++ dispatchedTo n t2 :=
  List.filterMap_append ..

theorem serviceStartSeq_append (t1 t2 : List Event) :
    serviceStartSeq (t1 ++ t2) = serviceStartSeq t1 ++ serviceStartSeq t2 :=
  List.filter_append ..

theorem shutdownEventsFor_append (a : String) (t1 t2 : List Event) :
    shutdownEventsFor a (t1 ++ t2) = shutdownEventsFor a t1 ++ shutdownEventsFor a t2 :=
  List.filter_append ..

theorem startCallsOf_eq_nil (k : String) (t : List Event)
    (h : ∀ e ∈ t, ∀ k' a, e ≠ Event.startCall k' a) : startCallsOf k t = [] := by
  rw [startCallsOf, List.filterMap_eq_nil_iff]
  intro e he
  cases e with
  | startCall k' a => exact absurd rfl (h _ he k' a)
  | prepareCall k' a => rfl
  | startResolved k' a => rfl
  | stopCall k' a => rfl
  | unexpose sfc a => rfl
  | dispatched n a => rfl
  | logFatal m => rfl
  | logInfo m => rfl

theorem stopCallsOf_eq_nil (k : String) (t : List Event)
    (h : ∀ e ∈ t, ∀ k' a, e ≠ Event.stopCall k' a) : stopCallsOf k t = [] := by
  rw [stopCallsOf, List.filterMap_eq_nil_iff]
  intro e he
  cases e with
  | stopCall k' a => exact absurd rfl (h _ he k' a)
  | prepareCall k' a => rfl
  | startCall k' a => rfl
  | startResolved k' a => rfl
  | unexpose sfc a => rfl
  | dispatched n a => rfl
  | logFatal m => rfl
  | logInfo m => rfl

theorem prepareCalls_eq_nil (t : List Event)
    (h : ∀ e ∈ t, ∀ k a, e ≠ Event.prepareCall k a) : prepareCalls t = [] := by
  rw [prepareCalls, List.filterMap_eq_nil_iff]
  intro e he
  cases e with
  | prepareCall k a => exact absurd rfl (h _ he k a)
  | stopCall k a => rfl
  | startCall k a => rfl
  | startResolved k a => rfl
  | unexpose sfc a => rfl
  | dispatched n a => rfl
  | logFatal m => rfl
  | logInfo m => rfl

theorem dispatchedTo_eq_nil (n : String) (t : List Event)
    (h : ∀ e ∈ t, ∀ a, e ≠ Event.dispatched n a) : dispatchedTo n t = [] := by
  rw [dispatchedTo, List.filterMap_eq_nil_iff]
  intro e he
  cases e with
  | dispatched n' a =>
    have hn : ¬n' = n := fun heq => h _ he a (by rw [heq])
    simp [hn]
  | prepareCall k a => rfl
  | stopCall k a => rfl
  | startCall k a => rfl
  | startResolved k a => rfl
  | unexpose sfc a => rfl
  | logFatal m => rfl
  | logInfo m => rfl

theorem serviceStartSeq_eq_nil (t : List Event)
    (h : ∀ e ∈ t, (∀ k a, e ≠ Event.startCall k a) ∧ ∀ k a, e ≠ Event.startResolved k a) :
    serviceStartSeq t = [] := by
  rw [serviceStartSeq, List.filter_eq_nil_iff]
  intro e he
  cases e with
  | startCall k a => exact absurd rfl ((h _ he).1 k a)
  | startResolved k a => exact absurd rfl ((h _ he).2 k a)
  | prepareCall k a => simp
  | stopCall k a => simp
  | unexpose sfc a => simp
  | dispatched n a => simp
  | logFatal m => simp
  | logInfo m => simp

theorem shutdownEventsFor_eq_nil (a : String) (t : List Event)
    (h : ∀ e ∈ t, e ≠ Event.unexpose "services" a ∧ e ≠ Event.stopCall "service" a) :
    shutdownEventsFor a t = [] := by
  rw [shutdownEventsFor, List.filter_eq_nil_iff]
  intro e he
  have := h e he
  simp only [Bool.or_eq_true, decide_eq_true_eq] at *
  tauto

theorem startCallsOf_map_same (k : String) (l : List Entry) :
    startCallsOf k (l.map (fun p => Event.startCall k p.1)) = aliases l := by
  induction l with
  | nil => rfl
  | cons p rest ih => simp [startCallsOf, aliases, List.filterMap_cons] at ih ⊢; exact ih

theorem startCallsOf_map_ne (k kd : String) (hk : kd ≠ k) (l : List Entry) :
    startCallsOf k (l.map (fun p => Event.startCall kd p.1)) = [] := by
  induction l with
  | nil => rfl
  | cons p rest ih => simp [startCallsOf, List.filterMap_cons, hk]

theorem stopCallsOf_map_same (k : String) (l : List Entry) :
    stopCallsOf k (l.map (fun p => Event.stopCall k p.1)) = aliases l := by
  induction l with
  | nil => rfl
  | cons p rest ih => simp [stopCallsOf, aliases, List.filterMap_cons] at ih ⊢; exact ih

theorem dispatchedTo_dispatch_same (n : String) (tg : List Entry) :
    dispatchedTo n (dispatch tg n) = aliases tg := by
  induction tg with
  | nil => rfl
  | cons p rest ih =>
    simp [dispatchedTo, dispatch, aliases, List.filterMap_cons] at ih ⊢; exact ih

theorem dispatchedTo_dispatch_ne (n m : String) (h : m ≠ n) (tg : List Entry) :
    dispatchedTo n (dispatch tg m) = [] := by
  induction tg with
  | nil => rfl
  | cons p rest ih => simp [dispatchedTo, dispatch, List.filterMap_cons, h]

theorem startCallsOf_dispatch (k n : String) (tg : List Entry) :
    startCallsOf k (dispatch tg n) = [] := by
  apply startCallsOf_eq_nil
  intro e he k' a
  simp only [dispatch, List.mem_map] at he
  obtain ⟨p, _, rfl⟩ := he
  simp

theorem stopCallsOf_dispatch (k n : String) (tg : List Entry) :
    stopCallsOf k (dispatch tg n) = [] := by
  apply stopCallsOf_eq_nil
  intro e he k' a
  simp only [dispatch, List.mem_map] at he
  obtain ⟨p, _, rfl⟩ := he
  simp

theorem prepareCalls_dispatch (n : String) (tg : List Entry) :
    prepareCalls (dispatch tg n) = [] := by
  apply prepareCalls_eq_nil
  intro e he k a
  simp only [dispatch, List.mem_map] at he
  obtain ⟨p, _, rfl⟩ := he
  simp

theorem serviceStartSeq_dispatch (n : String) (tg : List Entry) :
    serviceStartSeq (dispatch tg n) = [] := by
  apply serviceStartSeq_eq_nil
  intro e he
  simp only [dispatch, List.mem_map] at he
  obtain ⟨p, _, rfl⟩ := he
  simp

theorem shutdownEventsFor_dispatch (a n : String) (tg : List Entry) :
    shutdownEventsFor a (dispatch tg n) = [] := by
  apply shutdownEventsFor_eq_nil
  intro e he
  simp only [dispatch, List.mem_map] at he
  obtain ⟨p, _, rfl⟩ := he
  simp

theorem serviceStartSeq_serviceLoopTrace (l : List Entry) :
    serviceStartSeq (serviceLoopTrace l) = serviceLoopTrace l := by
  induction l with
  | nil => rfl
  | cons p rest ih =>
    obtain ⟨a, c⟩ := p
    simp [serviceStartSeq, serviceLoopTrace, List.filter_cons] at ih ⊢
    exact ih

theorem startCallsOf_serviceLoopTrace (l : List Entry) :
    startCallsOf "service" (serviceLoopTrace l) = aliases l := by
  induction l with
  | nil => rfl
  | cons p rest ih =>
    obtain ⟨a, c⟩ := p
    simp [startCallsOf, serviceLoopTrace, aliases, List.filterMap_cons] at ih ⊢
    exact ih

theorem startCallsOf_serviceLoopTrace_ne (k : String) (hk : k ≠ "service") (l : List Entry) :
    startCallsOf k (serviceLoopTrace l) = [] := by
  induction l with
  | nil => rfl
  | cons p rest ih =>
    obtain ⟨a, c⟩ := p
    simp [startCallsOf, serviceLoopTrace, List.filterMap_cons, if_neg (Ne.symm hk)] at ih ⊢
    exact ih

theorem stopCallsOf_serviceLoopTrace (k : String) (l : List Entry) :
    stopCallsOf k (serviceLoopTrace l) = [] := by
  induction l with
  | nil => rfl
  | cons p rest ih =>
    obtain ⟨a, c⟩ := p
    simp [stopCallsOf, serviceLoopTrace, List.filterMap_cons] at ih ⊢
    exact ih

theorem prepareCalls_serviceLoopTrace (l : List Entry) :
    prepareCalls (serviceLoopTrace l) = [] := by
  induction l with
  | nil => rfl
  | cons p rest ih =>
    obtain ⟨a, c⟩ := p
    simp [prepareCalls, serviceLoopTrace, List.filterMap_cons] at ih ⊢
    exact ih

theorem dispatchedTo_serviceLoopTrace (n : String) (l : List Entry) :
    dispatchedTo n (serviceLoopTrace l) = [] := by
  induction l with
  | nil => rfl
  | cons p rest ih =>
    obtain ⟨a, c⟩ := p
    simp [dispatchedTo, serviceLoopTrace, List.filterMap_cons] at ih ⊢
    exact ih

theorem stopCallsOf_stopLoopTrace (l : List Entry) :
    stopCallsOf "service" (stopLoopTrace l) = aliases l := by
  induction l with
  | nil => rfl
  | cons p rest ih =>
    obtain ⟨a, c⟩ := p
    simp [stopCallsOf, stopLoopTrace, aliases, List.filterMap_cons] at ih ⊢
    exact ih

theorem stopCallsOf_stopLoopTrace_ne (k : String) (hk : k ≠ "service") (l : List Entry) :
    stopCallsOf k (stopLoopTrace l) = [] := by
  induction l with
  | nil => rfl
  | cons p rest ih =>
    obtain ⟨a, c⟩ := p
    simp [stopCallsOf, stopLoopTrace, List.filterMap_cons, if_neg (Ne.symm hk)] at ih ⊢
    exact ih

theorem startCallsOf_stopLoopTrace (k : String) (l : List Entry) :
    startCallsOf k (stopLoopTrace l) = [] := by
  induction l with
  | nil => rfl
  | cons p rest ih =>
    obtain ⟨a, c⟩ := p
    simp [startCallsOf, stopLoopTrace, List.filterMap_cons] at ih ⊢
    exact ih

theorem prepareCalls_stopLoopTrace (l : List Entry) :
    prepareCalls (stopLoopTrace l) = [] := by
  induction l with
  | nil => rfl
  | cons p rest ih =>
    obtain ⟨a, c⟩ := p
    simp [prepareCalls, stopLoopTrace, List.filterMap_cons] at ih ⊢
    exact ih

theorem dispatchedTo_stopLoopTrace (n : String) (l : List Entry) :
    dispatchedTo n (stopLoopTrace l) = [] := by
  induction l with
  | nil => rfl
  | cons p rest ih =>
    obtain ⟨a, c⟩ := p
    simp [dispatchedTo, stopLoopTrace, List.filterMap_cons] at ih ⊢
    exact ih

theorem serviceStartSeq_stopLoopTrace (l : List Entry) :
    serviceStartSeq (stopLoopTrace l) = [] := by
  induction l with
  | nil => rfl
  | cons p rest ih =>
    obtain ⟨a, c⟩ := p
    simp [serviceStartSeq, stopLoopTrace, List.filter_cons] at ih ⊢
    exact ih

/-! ## Structural facts about prepare -/

theorem prepare_catalog (s : AtlasState) : (prepare s).2.1.catalog = s.catalog := by
  by_cases hp : s.prepared
  · simp [prepare_of_prepared s hp]
  · rcases hscan : scanHooks s.observers s.catalog.hooks with ⟨obs, oa⟩
    cases oa with
    | some a => simp [prepare, hp, hscan]
    | none =>
      cases hH : (prepPhase "hook" s.catalog.hooks).2 with
      | some e => simp [prepare, hp, hscan, hH]
      | none =>
        cases hA : (prepPhase "action" s.catalog.actions).2 with
        | some e => simp [prepare, hp, hscan, hH, hA]
        | none =>
          cases hS : (prepPhase "service" s.catalog.services).2 with
          | some e => simp [prepare, hp, hscan, hH, hA, hS]
          | none => simp [prepare, hp, hscan, hH, hA, hS]

theorem prepare_prepared_of_ok (s : AtlasState) (h : (prepare s).2.2 = none) :
    (prepare s).2.1.prepared = true := by
  by_cases hp : s.prepared
  · simp [prepare_of_prepared s hp, hp]
  · rcases hscan : scanHooks s.observers s.catalog.hooks with ⟨obs, oa⟩
    cases oa with
    | some a => simp [prepare, hp, hscan] at h
    | none =>
      cases hH : (prepPhase "hook" s.catalog.hooks).2 with
      | some e => simp [prepare, hp, hscan, hH] at h
      | none =>
        cases hA : (prepPhase "action" s.catalog.actions).2 with
        | some e => simp [prepare, hp, hscan, hH, hA] at h
        | none =>
          cases hS : (prepPhase "service" s.catalog.services).2 with
          | some e => simp [prepare, hp, hscan, hH, hA, hS] at h
          | none => simp [prepare, hp, hscan, hH, hA, hS]

theorem prepare_err_none (s : AtlasState) (hO : hooksObserve s.catalog = true)
    (hP : noPrepareFailures s.catalog = true) : (prepare s).2.2 = none := by
  by_cases hp : s.prepared
  · simp [prepare_of_prepared s hp]
  · obtain ⟨obs, h⟩ := prepare_success s (by simpa using hp) hO hP
    simp [h]


theorem shape_of_mem_prepPhase {e : Event} (kd : String) (l : List Entry)
    (h : e ∈ (prepPhase kd l).1) :
    (∃ k a, e = Event.prepareCall k a) ∨ ∃ n a, e = Event.dispatched n a := by
  simp only [prepPhase, List.mem_map] at h
  obtain ⟨p, -, rfl⟩ := h
  exact Or.inl ⟨_, _, rfl⟩

theorem shape_of_mem_dispatch {e : Event} (tg : List Entry) (n : String)
    (h : e ∈ dispatch tg n) :
    (∃ k a, e = Event.prepareCall k a) ∨ ∃ n a, e = Event.dispatched n a := by
  simp only [dispatch, List.mem_map] at h
  obtain ⟨p, -, rfl⟩ := h
  exact Or.inr ⟨_, _, rfl⟩

theorem prepare_trace_shape (s : AtlasState) :
    ∀ e ∈ (prepare s).1,
      (∃ k a, e = Event.prepareCall k a) ∨ ∃ n a, e = Event.dispatched n a := by
  intro e he
  by_cases hp : s.prepared
  · rw [prepare_of_prepared s hp] at he
    simp at he
  · rcases hscan : scanHooks s.observers s.catalog.hooks with ⟨obs, oa⟩
    cases oa with
    | some a =>
      simp [prepare, hp, hscan] at he
    | none =>
      cases hH : (prepPhase "hook" s.catalog.hooks).2 with
      | some e1 =>
        simp [prepare, hp, hscan, hH] at he
        exact shape_of_mem_prepPhase _ _ he
      | none =>
        cases hA : (prepPhase "action" s.catalog.actions).2 with
        | some e1 =>
          simp [prepare, hp, hscan, hH, hA] at he
          rcases he with h | h
          · exact shape_of_mem_prepPhase _ _ h
          · exact shape_of_mem_prepPhase _ _ h
        | none =>
          cases hS : (prepPhase "service" s.catalog.services).2 with
          | some e1 =>
            simp [prepare, hp, hscan, hH, hA, hS] at he
            rcases he with h | h | h
            · exact shape_of_mem_prepPhase _ _ h
            · exact shape_of_mem_prepPhase _ _ h
            · exact shape_of_mem_prepPhase _ _ h
          | none =>
            simp [prepare, hp, hscan, hH, hA, hS] at he
            rcases he with h | h | h | h
            · exact shape_of_mem_prepPhase _ _ h
            · exact shape_of_mem_prepPhase _ _ h
            · exact shape_of_mem_prepPhase _ _ h
            · exact shape_of_mem_dispatch _ _ h

theorem startCallsOf_prepare (s : AtlasState) (k : String) :
    startCallsOf k (prepare s).1 = [] := by
  apply startCallsOf_eq_nil
  intro e he k' a
  rcases prepare_trace_shape s e he with ⟨k1, a1, rfl⟩ | ⟨n1, a1, rfl⟩ <;> simp

theorem stopCallsOf_prepare (s : AtlasState) (k : String) :
    stopCallsOf k (prepare s).1 = [] := by
  apply stopCallsOf_eq_nil
  intro e he k' a
  rcases prepare_trace_shape s e he with ⟨k1, a1, rfl⟩ | ⟨n1, a1, rfl⟩ <;> simp

theorem serviceStartSeq_prepare (s : AtlasState) :
    serviceStartSeq (prepare s).1 = [] := by
  apply serviceStartSeq_eq_nil
  intro e he
  rcases prepare_trace_shape s e he with ⟨k1, a1, rfl⟩ | ⟨n1, a1, rfl⟩ <;> simp

theorem logFatal_not_mem_prepare (s : AtlasState) (m : String) :
    Event.logFatal m ∉ (prepare s).1 := by
  intro h
  rcases prepare_trace_shape s _ h with ⟨k1, a1, h'⟩ | ⟨n1, a1, h'⟩ <;> simp at h'

/-! ## Structural facts about stop -/

theorem stop_run (s : AtlasState) (hPS : noParStopFailures s.catalog = true) :
    stop s =
      (dispatch s.observers "beforeStop" ++
         (taggedHookActions s.catalog).map (fun q => Event.stopCall q.1 q.2.1) ++
         stopLoopTrace s.catalog.services.reverse ++
         dispatch s.catalog.hooks "afterStop" ++ [Event.logInfo "atlas:stopped"],
       { s with
           services :=
             s.catalog.services.reverse.foldl (fun acc p => eraseAlias acc p.1) s.services,
           actions := s.catalog.actions.foldl (fun acc p => eraseAlias acc p.1) s.actions,
           started := false,
           prepared := false },
       retainedError s.catalog.services.reverse) := by
  have hP := parStop_ok _ (tagged_all_stop _ hPS)
  simp [stop, hP, stopServicesLoop_trace, stopServicesLoop_surface, stopServicesLoop_err]

theorem stopLoopTrace_shape (l : List Entry) :
    ∀ e ∈ stopLoopTrace l,
      (∃ a, e = Event.unexpose "services" a) ∨ ∃ a, e = Event.stopCall "service" a := by
  induction l with
  | nil => simp [stopLoopTrace]
  | cons p rest ih =>
    obtain ⟨a, c⟩ := p
    intro e he
    rcases he with _ | ⟨_, (_ | ⟨_, hm⟩)⟩
    · exact Or.inl ⟨_, rfl⟩
    · exact Or.inr ⟨_, rfl⟩
    · exact ih _ hm

theorem stop_trace_shape (s : AtlasState) :
    ∀ e ∈ (stop s).1,
      (∃ n a, e = Event.dispatched n a) ∨ (∃ k a, e = Event.stopCall k a) ∨
        (∃ a, e = Event.unexpose "services" a) ∨ e = Event.logInfo "atlas:stopped" := by
  have hdis : ∀ (tg : List Entry) (n : String) {e : Event}, e ∈ dispatch tg n →
      ∃ n a, e = Event.dispatched n a := by
    intro tg n e hm
    simp only [dispatch, List.mem_map] at hm
    obtain ⟨p, -, rfl⟩ := hm
    exact ⟨_, _, rfl⟩
  have hpar : ∀ (items : List (String × Entry)) {e : Event}, e ∈ (parStop items).1 →
      ∃ k a, e = Event.stopCall k a := by
    intro items e hm
    simp only [parStop, List.mem_map] at hm
    obtain ⟨q, -, rfl⟩ := hm
    exact ⟨_, _, rfl⟩
  intro e he
  cases hP : (parStop (taggedHookActions s.catalog)).2 with
  | some err =>
    simp only [stop, hP] at he
    rcases List.mem_append.mp he with h | h
    · exact Or.inl (hdis _ _ h)
    · exact Or.inr (Or.inl (hpar _ h))
  | none =>
    simp only [stop, hP, stopServicesLoop_trace] at he
    rcases List.mem_append.mp he with h | h
    · rcases List.mem_append.mp h with h | h
      · rcases List.mem_append.mp h with h | h
        · rcases List.mem_append.mp h with h | h
          · exact Or.inl (hdis _ _ h)
          · exact Or.inr (Or.inl (hpar _ h))
        · rcases stopLoopTrace_shape _ _ h with ⟨a, rfl⟩ | ⟨a, rfl⟩
          · exact Or.inr (Or.inr (Or.inl ⟨_, rfl⟩))
          · exact Or.inr (Or.inl ⟨_, _, rfl⟩)
      · exact Or.inl (hdis _ _ h)
    · simp at h
      exact Or.inr (Or.inr (Or.inr h))

theorem startCallsOf_stop (s : AtlasState) (k : String) :
    startCallsOf k (stop s).1 = [] := by
  apply startCallsOf_eq_nil
  intro e he k' a
  rcases stop_trace_shape s e he with ⟨n1, a1, rfl⟩ | ⟨k1, a1, rfl⟩ | ⟨a1, rfl⟩ | rfl <;> simp

theorem prepareCalls_stop (s : AtlasState) :
    prepareCalls (stop s).1 = [] := by
  apply prepareCalls_eq_nil
  intro e he k' a
  rcases stop_trace_shape s e he with ⟨n1, a1, rfl⟩ | ⟨k1, a1, rfl⟩ | ⟨a1, rfl⟩ | rfl <;> simp

theorem serviceStartSeq_stop (s : AtlasState) :
    serviceStartSeq (stop s).1 = [] := by
  apply serviceStartSeq_eq_nil
  intro e he
  rcases stop_trace_shape s e he with ⟨n1, a1, rfl⟩ | ⟨k1, a1, rfl⟩ | ⟨a1, rfl⟩ | rfl <;> simp

theorem logFatal_not_mem_stop (s : AtlasState) (m : String) :
    Event.logFatal m ∉ (stop s).1 := by
  intro h
  rcases stop_trace_shape s _ h with ⟨n1, a1, h'⟩ | ⟨k1, a1, h'⟩ | ⟨a1, h'⟩ | h' <;> simp at h'

theorem stop_err_isSome (s : AtlasState) :
    (stop s).2.2.isSome = someStopFailure s.catalog := by
  cases hP : (parStop (taggedHookActions s.catalog)).2 with
  | some err =>
    simp only [stop, hP, someStopFailure]
    simp only [parStop, taggedHookActions] at hP
    rcases hfind : ((s.catalog.hooks.map (fun p => ("hook", p)) ++
        s.catalog.actions.map (fun p => ("action", p))).find?
          (fun q => q.2.2.stopFails)) with _ | q
    · rw [hfind] at hP; simp at hP
    · have := List.find?_some hfind
      have hmem := List.mem_of_find?_eq_some hfind
      simp only [List.mem_append, List.mem_map] at hmem
      simp only [Option.isSome_some, Bool.true_eq, Bool.or_eq_true, List.any_eq_true]
      left
      rcases hmem with ⟨p, hp, rfl⟩ | ⟨p, hp, rfl⟩
      · exact ⟨p, List.mem_append_left _ hp, this⟩
      · exact ⟨p, List.mem_append_right _ hp, this⟩
  | none =>
    simp only [stop, hP, stopServicesLoop_err, retainedError_eq, someStopFailure]
    have hparnone : ∀ q ∈ taggedHookActions s.catalog, ¬q.2.2.stopFails = true := by
      intro q hq
      have : (taggedHookActions s.catalog).find? (fun q => q.2.2.stopFails) = none := by
        by_contra hne
        rcases Option.ne_none_iff_exists'.mp hne with ⟨v, hv⟩
        simp [parStop, hv] at hP
      exact by
        have := List.find?_eq_none.mp this q hq
        simpa using this
    have hha : (s.catalog.hooks ++ s.catalog.actions).any (fun p => p.2.stopFails) = false := by
      rw [Bool.eq_false_iff]
      intro hany
      rcases List.any_eq_true.mp hany with ⟨p, hp, hfail⟩
      rcases List.mem_append.mp hp with h | h
      · exact hparnone ("hook", p)
          (List.mem_append_left _ (List.mem_map_of_mem _ h)) hfail
      · exact hparnone ("action", p)
          (List.mem_append_right _ (List.mem_map_of_mem _ h)) hfail
    rw [hha]
    simp only [Bool.false_or, List.reverse_reverse]
    rcases hfind : (s.catalog.services.find? fun p => p.2.stopFails) with _ | q
    · rw [hfind]
      simp only [Option.map_none', Option.isSome_none]
      symm
      rw [Bool.eq_false_iff]
      intro hany
      rcases List.any_eq_true.mp hany with ⟨p, hp, hfail⟩
      exact absurd hfail (by simpa using List.find?_eq_none.mp hfind p hp)
    · rw [hfind]
      have hmem := List.mem_of_find?_eq_some hfind
      have hfail := List.find?_some hfind
      simp only [Option.map_some', Option.isSome_some]
      symm
      exact List.any_eq_true.mpr ⟨q, hmem, hfail⟩

/-! ## Structural facts about start -/

theorem startServicesLoop_state_ok (s : AtlasState) (l : List Entry)
    (h : (startServicesLoop s l).2.2 = none) : (startServicesLoop s l).2.1 = s := by
  induction l with
  | nil => rfl
  | cons p rest ih =>
    obtain ⟨a, c⟩ := p
    cases hc : c.startFails with
    | true => simp [startServicesLoop, hc] at h
    | false =>
      simp only [startServicesLoop, hc] at h ⊢
      simp at h ⊢
      exact ih h

theorem start_state_ok (s : AtlasState) (h : (start s).2.2 = none) :
    (start s).2.1 = { (prepare s).2.1 with started := true } := by
  cases hp : (prepare s).2.2 with
  | some e => simp [start, hp] at h
  | none =>
    cases hP : (parStart (taggedHookActions (prepare s).2.1.catalog)).2 with
    | some e => simp [start, hp, hP] at h
    | none =>
      cases hL : (startServicesLoop (prepare s).2.1 (prepare s).2.1.catalog.services).2.2 with
      | some e => simp [start, hp, hP, hL] at h
      | none =>
        simp [start, hp, hP, hL, startServicesLoop_state_ok _ _ hL]

theorem start_success (s : AtlasState)
    (hO : hooksObserve s.catalog = true) (hP : noPrepareFailures s.catalog = true)
    (hPS : noParStartFailures s.catalog = true)
    (hSS : noServiceStartFailures s.catalog = true) :
    start s =
      ((prepare s).1 ++ dispatch (prepare s).2.1.observers "beforeStart" ++
         (taggedHookActions s.catalog).map (fun q => Event.startCall q.1 q.2.1) ++
         serviceLoopTrace s.catalog.services ++
         dispatch (prepare s).2.1.observers "afterStart" ++ [Event.logInfo "atlas:ready"],
       { (prepare s).2.1 with started := true }, none) := by
  have hcat : (prepare s).2.1.catalog = s.catalog := prepare_catalog s
  have hok : (prepare s).2.2 = none := prepare_err_none s hO hP
  have hPar : parStart (taggedHookActions (prepare s).2.1.catalog) =
      ((taggedHookActions s.catalog).map (fun q => Event.startCall q.1 q.2.1), none) := by
    rw [hcat]
    exact parStart_ok _ (tagged_all_start _ hPS)
  have hLoop : startServicesLoop (prepare s).2.1 (prepare s).2.1.catalog.services =
      (serviceLoopTrace s.catalog.services, (prepare s).2.1, none) := by
    rw [hcat]
    exact startServicesLoop_ok _ _ hSS
  simp [start, hok, hPar, hLoop]

/-! ## Public-surface bookkeeping lemmas -/

theorem mem_insertAlias {surface : List String} {a x : String}
    (h : x ∈ insertAlias surface a) : x ∈ surface ∨ x = a := by
  by_cases hm : a ∈ surface <;> simp [insertAlias, hm] at h <;> tauto

theorem mem_foldl_insertAlias {x : String} :
    ∀ (l : List String) (surface : List String),
      x ∈ l.foldl insertAlias surface → x ∈ surface ∨ x ∈ l := by
  intro l
  induction l with
  | nil => exact fun surface h => Or.inl h
  | cons a rest ih =>
    intro surface h
    rcases ih _ h with h' | h'
    · rcases mem_insertAlias h' with h'' | h''
      · exact Or.inl h''
      · exact Or.inr (h'' ▸ List.mem_cons_self a rest)
    · exact Or.inr (List.mem_cons_of_mem _ h')

theorem exposedOf_sub {x : String} {items : List Entry} (h : x ∈ exposedOf items) :
    x ∈ aliases items := by
  simp only [exposedOf, aliases, List.mem_map, List.mem_filter] at h ⊢
  obtain ⟨p, ⟨hp, -⟩, rfl⟩ := h
  exact ⟨p, hp, rfl⟩

theorem mem_foldl_erase {x : String} :
    ∀ (l : List Entry) (surface : List String),
      x ∈ l.foldl (fun acc p => eraseAlias acc p.1) surface →
        x ∈ surface ∧ x ∉ aliases l := by
  intro l
  induction l with
  | nil =>
    intro surface h
    exact ⟨h, by simp [aliases]⟩
  | cons p rest ih =>
    intro surface h
    obtain ⟨h1, h2⟩ := ih _ h
    simp only [eraseAlias, List.mem_filter, decide_eq_true_eq] at h1
    refine ⟨h1.1, ?_⟩
    simp only [aliases, List.map_cons, List.mem_cons] at h2 ⊢
    rintro (h' | h')
    · exact h1.2 h'
    · exact h2 h'

theorem foldl_erase_eq_nil (l : List Entry) (surface : List String)
    (h : ∀ x ∈ surface, x ∈ aliases l) :
    l.foldl (fun acc p => eraseAlias acc p.1) surface = [] := by
  rw [List.eq_nil_iff_forall_not_mem]
  intro x hx
  obtain ⟨h1, h2⟩ := mem_foldl_erase l surface hx
  exact h2 (h x h1)

theorem not_mem_foldl_erase {x : String} (l : List Entry) (surface : List String)
    (h : x ∈ aliases l) : x ∉ l.foldl (fun acc p => eraseAlias acc p.1) surface := by
  intro hx
  exact (mem_foldl_erase l surface hx).2 h

theorem prepare_services_mem (s : AtlasState) (x : String)
    (h : x ∈ (prepare s).2.1.services) :
    x ∈ s.services ∨ x ∈ aliases s.catalog.services := by
  by_cases hp : s.prepared
  · rw [prepare_of_prepared s hp] at h
    exact Or.inl h
  · rcases hscan : scanHooks s.observers s.catalog.hooks with ⟨obs, oa⟩
    cases oa with
    | some a =>
      simp [prepare, hp, hscan] at h
      exact Or.inl h
    | none =>
      cases hH : (prepPhase "hook" s.catalog.hooks).2 with
      | some e1 =>
        simp [prepare, hp, hscan, hH] at h
        exact Or.inl h
      | none =>
        cases hA : (prepPhase "action" s.catalog.actions).2 with
        | some e1 =>
          simp [prepare, hp, hscan, hH, hA] at h
          exact Or.inl h
        | none =>
          cases hS : (prepPhase "service" s.catalog.services).2 with
          | some e1 =>
            simp [prepare, hp, hscan, hH, hA, hS] at h
            rcases mem_foldl_insertAlias _ _ h with h' | h'
            · exact Or.inl h'
            · exact Or.inr (exposedOf_sub h')
          | none =>
            simp [prepare, hp, hscan, hH, hA, hS] at h
            rcases mem_foldl_insertAlias _ _ h with h' | h'
            · exact Or.inl h'
            · exact Or.inr (exposedOf_sub h')

theorem prepare_actions_mem (s : AtlasState) (x : String)
    (h : x ∈ (prepare s).2.1.actions) :
    x ∈ s.actions ∨ x ∈ aliases s.catalog.actions := by
  by_cases hp : s.prepared
  · rw [prepare_of_prepared s hp] at h
    exact Or.inl h
  · rcases hscan : scanHooks s.observers s.catalog.hooks with ⟨obs, oa⟩
    cases oa with
    | some a =>
      simp [prepare, hp, hscan] at h
      exact Or.inl h
    | none =>
      cases hH : (prepPhase "hook" s.catalog.hooks).2 with
      | some e1 =>
        simp [prepare, hp, hscan, hH] at h
        exact Or.inl h
      | none =>
        cases hA : (prepPhase "action" s.catalog.actions).2 with
        | some e1 =>
          simp [prepare, hp, hscan, hH, hA] at h
          rcases mem_foldl_insertAlias _ _ h with h' | h'
          · exact Or.inl h'
          · exact Or.inr (exposedOf_sub h')
        | none =>
          cases hS : (prepPhase "service" s.catalog.services).2 with
          | some e1 =>
            simp [prepare, hp, hscan, hH, hA, hS] at h
            rcases mem_foldl_insertAlias _ _ h with h' | h'
            · exact Or.inl h'
            · exact Or.inr (exposedOf_sub h')
          | none =>
            simp [prepare, hp, hscan, hH, hA, hS] at h
            rcases mem_foldl_insertAlias _ _ h with h' | h'
            · exact Or.inl h'
            · exact Or.inr (exposedOf_sub h')

theorem aliases_reverse (l : List Entry) : aliases l.reverse = (aliases l).reverse := by
  simp [aliases]

theorem taggedMap_start (c : Catalog) :
    (taggedHookActions c).map (fun q => Event.startCall q.1 q.2.1) =
      c.hooks.map (fun p => Event.startCall "hook" p.1) ++
        c.actions.map (fun p => Event.startCall "action" p.1) := by
  rw [taggedHookActions, List.map_append, List.map_map, List.map_map]
  rfl

theorem taggedMap_stop (c : Catalog) :
    (taggedHookActions c).map (fun q => Event.stopCall q.1 q.2.1) =
      c.hooks.map (fun p => Event.stopCall "hook" p.1) ++
        c.actions.map (fun p => Event.stopCall "action" p.1) := by
  rw [taggedHookActions, List.map_append, List.map_map, List.map_map]
  rfl

theorem serviceStartSeq_map_startCall_ne (kd : String) (hk : kd ≠ "service")
    (l : List Entry) :
    serviceStartSeq (l.map (fun p => Event.startCall kd p.1)) = [] := by
  induction l with
  | nil => rfl
  | cons p rest ih => simp [serviceStartSeq, List.filter_cons, hk] at ih ⊢; exact ih

theorem stopCallsOf_map_ne (k kd : String) (hk : kd ≠ k) (l : List Entry) :
    stopCallsOf k (l.map (fun p => Event.stopCall kd p.1)) = [] := by
  induction l with
  | nil => rfl
  | cons p rest ih => simp [stopCallsOf, List.filterMap_cons, hk]

theorem prepareCalls_map_startCall (kd : String) (l : List Entry) :
    prepareCalls (l.map (fun p => Event.startCall kd p.1)) = [] := by
  induction l with
  | nil => rfl
  | cons p rest ih => simp [prepareCalls, List.filterMap_cons]

theorem dispatchedTo_map_startCall (n kd : String) (l : List Entry) :
    dispatchedTo n (l.map (fun p => Event.startCall kd p.1)) = [] := by
  induction l with
  | nil => rfl
  | cons p rest ih => simp [dispatchedTo, List.filterMap_cons]

theorem dispatchedTo_map_stopCall (n kd : String) (l : List Entry) :
    dispatchedTo n (l.map (fun p => Event.stopCall kd p.1)) = [] := by
  induction l with
  | nil => rfl
  | cons p rest ih => simp [dispatchedTo, List.filterMap_cons]

theorem shutdownEventsFor_map_stopCall (a kd : String) (hk : kd ≠ "service")
    (l : List Entry) :
    shutdownEventsFor a (l.map (fun p => Event.stopCall kd p.1)) = [] := by
  induction l with
  | nil => rfl
  | cons p rest ih => simp [shutdownEventsFor, List.filter_cons, hk] at ih ⊢; exact ih

theorem startCallsOf_map_stopCall (k kd : String) (l : List Entry) :
    startCallsOf k (l.map (fun p => Event.stopCall kd p.1)) = [] := by
  induction l with
  | nil => rfl
  | cons p rest ih => simp [startCallsOf, List.filterMap_cons]

/-! ## The claims -/

theorem startCallsOf_cons_same (k a : String) (t : List Event) :
    startCallsOf k (Event.startCall k a :: t) = a :: startCallsOf k t := by
  simp [startCallsOf, List.filterMap_cons]

theorem stopCallsOf_cons_startCall (k kd a : String) (t : List Event) :
    stopCallsOf k (Event.startCall kd a :: t) = stopCallsOf k t := by
  simp [stopCallsOf, List.filterMap_cons]


/-- C1: for every catalog with two or more registered services (and
well-behaved components, so that every phase before and after the
service loops completes), `start()` invokes each service container's
`start` strictly sequentially in registration order — the trace
restricted to service-start events is exactly, per registered service in
order, its invocation immediately followed by its resolution — and
`stop()` on the started orchestrator invokes each service container's
`stop` strictly sequentially in reverse registration order. -/
theorem c1_service_order (s : AtlasState)
    (_hn : 2 ≤ s.catalog.services.length)
    (hO : hooksObserve s.catalog = true) (hP : noPrepareFailures s.catalog = true)
    (hPS : noParStartFailures s.catalog = true)
    (hSS : noServiceStartFailures s.catalog = true)
    (hStop : noParStopFailures s.catalog = true) :
    serviceStartSeq (start s).1 = serviceLoopTrace s.catalog.services ∧
      stopCallsOf "service" (stop (start s).2.1).1 =
        (aliases s.catalog.services).reverse := by
  have hrun := start_success s hO hP hPS hSS
  constructor
  · rw [hrun]
    simp only [serviceStartSeq_append, serviceStartSeq_prepare, serviceStartSeq_dispatch,
      taggedMap_start, serviceStartSeq_serviceLoopTrace,
      serviceStartSeq_map_startCall_ne "hook" (by decide),
      serviceStartSeq_map_startCall_ne "action" (by decide)]
    simp [serviceStartSeq]
  · have hstate : (start s).2.1 = { (prepare s).2.1 with started := true } := by rw [hrun]
    have hcat2 : (start s).2.1.catalog = s.catalog := by
      rw [hstate]
      exact prepare_catalog s
    have hrun2 := stop_run ((start s).2.1) (by rw [hcat2]; exact hStop)
    rw [hrun2, hcat2]
    simp only [stopCallsOf_append, stopCallsOf_dispatch, taggedMap_stop,
      stopCallsOf_map_ne "service" "hook" (by decide),
      stopCallsOf_map_ne "service" "action" (by decide),
      stopCallsOf_stopLoopTrace, aliases_reverse]
    simp [stopCallsOf]

theorem stopCallsOf_map_startCall (k kd : String) (l : List Entry) :
    stopCallsOf k (l.map (fun p => Event.startCall kd p.1)) = [] := by
  induction l with
  | nil => rfl
  | cons p rest ih => simp [stopCallsOf, List.filterMap_cons]

theorem logFatal_not_mem_serviceLoopTrace (m : String) (l : List Entry) :
    Event.logFatal m ∉ serviceLoopTrace l := by
  induction l with
  | nil => simp [serviceLoopTrace]
  | cons p rest ih =>
    obtain ⟨a, c⟩ := p
    simp [serviceLoopTrace]
    exact ih


/-- C2: when the start of service `a` throws during `start()` (all
services registered before it starting fine), the sequential loop is
aborted immediately (no later service is started), `stop()` is invoked
on the whole orchestrator as rollback (when it reaches its service loop
it stops every registered service, in reverse registration order), an
error of the rollback is only logged at fatal severity — the fatal log
entry appears exactly when some container's stop rejects — and the
original service-start error is the one re-thrown to the caller
regardless of the rollback's outcome. -/
theorem c2_rollback (s : AtlasState) (pre post : List Entry) (a : String) (c : Component)
    (hO : hooksObserve s.catalog = true) (hP : noPrepareFailures s.catalog = true)
    (hPS : noParStartFailures s.catalog = true)
    (hsvc : s.catalog.services = pre ++ (a, c) :: post)
    (hpre : pre.all (fun p => !p.2.startFails) = true)
    (hc : c.startFails = true) :
    (start s).2.2 = some (Error.componentFailure "start" a) ∧
      startCallsOf "service" (start s).1 = aliases pre ++ [a] ∧
      (noParStopFailures s.catalog = true →
        stopCallsOf "service" (start s).1 = (aliases s.catalog.services).reverse) ∧
      (Event.logFatal "atlas:start:rollback-failure" ∈ (start s).1 ↔
        someStopFailure s.catalog = true) := by
  have hok : (prepare s).2.2 = none := prepare_err_none s hO hP
  have hcat : (prepare s).2.1.catalog = s.catalog := prepare_catalog s
  have hPar : parStart (taggedHookActions (prepare s).2.1.catalog) =
      ((taggedHookActions s.catalog).map (fun q => Event.startCall q.1 q.2.1), none) := by
    rw [hcat]
    exact parStart_ok _ (tagged_all_start _ hPS)
  have hsvc1 : (prepare s).2.1.catalog.services = pre ++ (a, c) :: post := by
    rw [hcat, hsvc]
  have hLoop : startServicesLoop (prepare s).2.1 (prepare s).2.1.catalog.services =
      (serviceLoopTrace pre ++ Event.startCall "service" a :: (stop (prepare s).2.1).1 ++
         (if (stop (prepare s).2.1).2.2.isSome then
            [Event.logFatal "atlas:start:rollback-failure"] else []),
       (stop (prepare s).2.1).2.1, some (Error.componentFailure "start" a)) := by
    rw [hsvc1]
    exact startServicesLoop_fail _ pre post a c hpre hc
  have hstart : start s =
      ((prepare s).1 ++ dispatch (prepare s).2.1.observers "beforeStart" ++
         (taggedHookActions s.catalog).map (fun q => Event.startCall q.1 q.2.1) ++
         (serviceLoopTrace pre ++ Event.startCall "service" a :: (stop (prepare s).2.1).1 ++
           (if (stop (prepare s).2.1).2.2.isSome then
              [Event.logFatal "atlas:start:rollback-failure"] else [])),
       (stop (prepare s).2.1).2.1, some (Error.componentFailure "start" a)) := by
    simp [start, hok, hPar, hLoop]
  refine ⟨by rw [hstart], ?_, ?_, ?_⟩
  · rw [hstart]
    simp only [startCallsOf_append, startCallsOf_prepare, startCallsOf_dispatch,
      taggedMap_start, startCallsOf_map_ne "service" "hook" (by decide),
      startCallsOf_map_ne "service" "action" (by decide),
      startCallsOf_serviceLoopTrace, startCallsOf_cons_same, startCallsOf_stop]
    cases hif : (stop (prepare s).2.1).2.2.isSome <;> simp [hif, startCallsOf]
  · intro hStop
    have hStop1 : noParStopFailures (prepare s).2.1.catalog = true := by
      rw [hcat]
      exact hStop
    have hstoprun := stop_run ((prepare s).2.1) hStop1
    rw [hstart, hstoprun, hcat]
    simp only [stopCallsOf_cons_startCall, stopCallsOf_append, stopCallsOf_prepare,
      stopCallsOf_dispatch, taggedMap_start, taggedMap_stop, stopCallsOf_map_startCall,
      stopCallsOf_map_ne "service" "hook" (by decide),
      stopCallsOf_map_ne "service" "action" (by decide),
      stopCallsOf_serviceLoopTrace, stopCallsOf_stopLoopTrace, aliases_reverse]
    cases hif : (retainedError s.catalog.services.reverse).isSome <;> simp [hif, stopCallsOf]
  · rw [hstart]
    have h1 := logFatal_not_mem_prepare s "atlas:start:rollback-failure"
    have h2 : Event.logFatal "atlas:start:rollback-failure" ∉
        dispatch (prepare s).2.1.observers "beforeStart" := by simp [dispatch]
    have h3 : Event.logFatal "atlas:start:rollback-failure" ∉
        (taggedHookActions s.catalog).map (fun q => Event.startCall q.1 q.2.1) := by simp
    have h4 := logFatal_not_mem_serviceLoopTrace "atlas:start:rollback-failure" pre
    have h5 := logFatal_not_mem_stop (prepare s).2.1 "atlas:start:rollback-failure"
    have hiff : (stop (prepare s).2.1).2.2.isSome = someStopFailure s.catalog := by
      rw [stop_err_isSome, hcat]
    rw [← hiff]
    cases hif : (stop (prepare s).2.1).2.2.isSome
    · simp [hif, List.mem_append, h1, h2, h3, h4, h5]
    · simp [hif, List.mem_append, h1, h2, h3, h4, h5]

/-- Witness instantiating `c1_service_order` on a concrete catalog with
two services. -/
theorem c1_service_order_witness :
    (2 ≤ (AtlasState.init sampleCat).catalog.services.length ∧
      hooksObserve (AtlasState.init sampleCat).catalog = true ∧
      noPrepareFailures (AtlasState.init sampleCat).catalog = true ∧
      noParStartFailures (AtlasState.init sampleCat).catalog = true ∧
      noServiceStartFailures (AtlasState.init sampleCat).catalog = true ∧
      noParStopFailures (AtlasState.init sampleCat).catalog = true) ∧
    (serviceStartSeq (start (AtlasState.init sampleCat)).1 =
        serviceLoopTrace (AtlasState.init sampleCat).catalog.services ∧
      stopCallsOf "service" (stop (start (AtlasState.init sampleCat)).2.1).1 =
        (aliases (AtlasState.init sampleCat).catalog.services).reverse) :=
  ⟨⟨by decide, rfl, rfl, rfl, rfl, rfl⟩,
   c1_service_order (AtlasState.init sampleCat) (by decide) rfl rfl rfl rfl rfl⟩

/-- Witness instantiating `c2_rollback` on a concrete catalog whose
second service fails to start. -/
theorem c2_rollback_witness :
    (hooksObserve (AtlasState.init failCat).catalog = true ∧
      noPrepareFailures (AtlasState.init failCat).catalog = true ∧
      noParStartFailures (AtlasState.init failCat).catalog = true ∧
      (AtlasState.init failCat).catalog.services =
        [("A", okComp)] ++ ("B", startFailing) :: [("C", okComp)] ∧
      [("A", okComp)].all (fun p => !p.2.startFails) = true ∧
      startFailing.startFails = true) ∧
    ((start (AtlasState.init failCat)).2.2 =
        some (Error.componentFailure "start" "B") ∧
      startCallsOf "service" (start (AtlasState.init failCat)).1 =
        aliases [("A", okComp)] ++ ["B"] ∧
      (noParStopFailures (AtlasState.init failCat).catalog = true →
        stopCallsOf "service" (start (AtlasState.init failCat)).1 =
          (aliases (AtlasState.init failCat).catalog.services).reverse) ∧
      (Event.logFatal "atlas:start:rollback-failure" ∈ (start (AtlasState.init failCat)).1 ↔
        someStopFailure (AtlasState.init failCat).catalog = true)) :=
  ⟨⟨rfl, rfl, rfl, rfl, rfl, rfl⟩,
   c2_rollback (AtlasState.init failCat) [("A", okComp)] [("C", okComp)] "B" startFailing
     rfl rfl rfl rfl rfl rfl⟩

theorem shutdownEventsFor_stopLoopTrace_not_mem (a : String) (l : List Entry)
    (h : a ∉ aliases l) :
    shutdownEventsFor a (stopLoopTrace l) = [] := by
  induction l with
  | nil => rfl
  | cons p rest ih =>
    obtain ⟨x, c⟩ := p
    simp only [aliases, List.map_cons, List.mem_cons, not_or] at h
    have hx : ¬x = a := fun hh => h.1 hh.symm
    simp only [stopLoopTrace, shutdownEventsFor, List.filter_cons]
    simp only [shutdownEventsFor, aliases] at ih
    simp [hx, ih (by simpa [aliases] using h.2)]

theorem shutdownEventsFor_stopLoopTrace (a : String) (l : List Entry)
    (hmem : a ∈ aliases l) (hnd : (aliases l).Nodup) :
    shutdownEventsFor a (stopLoopTrace l) =
      [Event.unexpose "services" a, Event.stopCall "service" a] := by
  induction l with
  | nil => simp [aliases] at hmem
  | cons p rest ih =>
    obtain ⟨x, c⟩ := p
    simp only [aliases, List.map_cons, List.nodup_cons] at hnd
    by_cases hx : x = a
    · subst hx
      simp only [stopLoopTrace, shutdownEventsFor, List.filter_cons]
      have hrest : shutdownEventsFor x (stopLoopTrace rest) = [] :=
        shutdownEventsFor_stopLoopTrace_not_mem x rest (by simpa [aliases] using hnd.1)
      simp only [shutdownEventsFor] at hrest
      simp [hrest]
    · have hmem' : a ∈ aliases rest := by
        simp only [aliases, List.map_cons, List.mem_cons] at hmem
        rcases hmem with h | h
        · exact absurd h.symm hx
        · simpa [aliases] using h
      have := ih hmem' (by simpa [aliases] using hnd.2)
      simp only [stopLoopTrace, shutdownEventsFor, List.filter_cons]
      simp only [shutdownEventsFor] at this
      simp [hx, this]



/-- C3: during `stop()`, the failure of a service's stop does not halt
the shutdown loop — every registered service still has its `stop`
invoked, in reverse registration order; only the most recently captured
error is retained, i.e. the failure of the earliest-registered failing
service (`a` below, all services before it stopping fine), which is
re-thrown only after all services have been processed, the public
surfaces cleaned up, and `afterStop` dispatched to the hook catalog. -/
theorem c3_stop_error_retention (s : AtlasState) (pre post : List Entry)
    (a : String) (c : Component)
    (hStop : noParStopFailures s.catalog = true)
    (hsvc : s.catalog.services = pre ++ (a, c) :: post)
    (hpre : pre.all (fun p => !p.2.stopFails) = true)
    (hc : c.stopFails = true) :
    stopCallsOf "service" (stop s).1 = (aliases s.catalog.services).reverse ∧
      (stop s).2.2 = some (Error.componentFailure "stop" a) ∧
      (∀ x ∈ aliases s.catalog.services, x ∉ (stop s).2.1.services) ∧
      (∀ x ∈ aliases s.catalog.actions, x ∉ (stop s).2.1.actions) ∧
      dispatchedTo "afterStop" (stop s).1 = aliases s.catalog.hooks := by
  have hrun := stop_run s hStop
  refine ⟨?_, ?_, ?_, ?_, ?_⟩
  · rw [hrun]
    simp only [stopCallsOf_append, stopCallsOf_dispatch, taggedMap_stop,
      stopCallsOf_map_ne "service" "hook" (by decide),
      stopCallsOf_map_ne "service" "action" (by decide),
      stopCallsOf_stopLoopTrace, aliases_reverse]
    simp [stopCallsOf]
  · rw [hrun]
    simp only [retainedError_eq, List.reverse_reverse, hsvc, List.find?_append]
    rw [List.find?_eq_none.mpr (by
      intro x hx
      simp only [List.all_eq_true] at hpre
      simpa using hpre x hx)]
    rw [List.find?_cons_of_pos _ (by simpa using hc)]
    rfl
  · intro x hx
    rw [hrun]
    exact not_mem_foldl_erase _ _ (by rwa [aliases_reverse, List.mem_reverse])
  · intro x hx
    rw [hrun]
    exact not_mem_foldl_erase _ _ hx
  · rw [hrun]
    simp only [dispatchedTo_append, dispatchedTo_dispatch_ne "afterStop" "beforeStop" (by decide),
      taggedMap_stop, dispatchedTo_map_stopCall, dispatchedTo_stopLoopTrace,
      dispatchedTo_dispatch_same]
    simp [dispatchedTo]

/-- C4: `prepare()` is idempotent — on an orchestrator on which
`prepare()` has already succeeded, a second `prepare()` short-circuits:
it produces no events at all (in particular it invokes no component
container's `prepare`), leaves the state (hence the public `services`
and `actions` surfaces) unchanged, and resolves with the same
orchestrator. -/
theorem c4_prepare_idempotent (s : AtlasState) (h : (prepare s).2.2 = none) :
    prepare (prepare s).2.1 = ([], (prepare s).2.1, none) :=
  prepare_of_prepared _ (prepare_prepared_of_ok s h)

/-- C5: `prepared` and `started` are both false on a freshly constructed
orchestrator, both are reset to false at the end of every `stop()` run
that reaches its service loop, and after a successful `start()` followed
by `stop()` the orchestrator satisfies `prepared = false`,
`started = false` with empty public `services` and `actions`
mappings. -/
theorem c5_roundtrip (c : Catalog)
    (hStart : (start (AtlasState.init c)).2.2 = none)
    (hStop : noParStopFailures c = true) :
    ((AtlasState.init c).prepared = false ∧ (AtlasState.init c).started = false) ∧
      (∀ s' : AtlasState, noParStopFailures s'.catalog = true →
        (stop s').2.1.prepared = false ∧ (stop s').2.1.started = false) ∧
      ((stop (start (AtlasState.init c)).2.1).2.1.prepared = false ∧
        (stop (start (AtlasState.init c)).2.1).2.1.started = false ∧
        (stop (start (AtlasState.init c)).2.1).2.1.services = [] ∧
        (stop (start (AtlasState.init c)).2.1).2.1.actions = []) := by
  refine ⟨⟨rfl, rfl⟩, ?_, ?_⟩
  · intro s' h'
    rw [stop_run s' h']
    exact ⟨rfl, rfl⟩
  · have hstate := start_state_ok _ hStart
    have hcat1 : (start (AtlasState.init c)).2.1.catalog = c := by
      rw [hstate]
      exact prepare_catalog _
    have hStop1 : noParStopFailures (start (AtlasState.init c)).2.1.catalog = true := by
      rw [hcat1]
      exact hStop
    rw [stop_run _ hStop1]
    refine ⟨rfl, rfl, ?_, ?_⟩
    · rw [hcat1]
      apply foldl_erase_eq_nil
      intro x hx
      have hx' : x ∈ (prepare (AtlasState.init c)).2.1.services := by
        rw [hstate] at hx
        exact hx
      rcases prepare_services_mem _ _ hx' with h | h
      · simp [AtlasState.init] at h
      · rw [aliases_reverse, List.mem_reverse]
        exact h
    · rw [hcat1]
      apply foldl_erase_eq_nil
      intro x hx
      have hx' : x ∈ (prepare (AtlasState.init c)).2.1.actions := by
        rw [hstate] at hx
        exact hx
      rcases prepare_actions_mem _ _ hx' with h | h
      · simp [AtlasState.init] at h
      · exact h

/-- C6: if some registered hook's definition lacks the static `observes`
declaration, `prepare()` rejects with a configuration error identifying
the offending alias (the first such hook `q` in catalog order), during
the initial hook-scan step: the trace is empty, so no hook, action or
service container's `prepare` was invoked, and the public surfaces and
the `prepared` flag are untouched. -/
theorem c6_missing_observes (s : AtlasState) (q : Entry)
    (hp : s.prepared = false)
    (hq : s.catalog.hooks.find? (fun p => p.2.observes.isNone) = some q) :
    (prepare s).1 = [] ∧
      (prepare s).2.2 = some (Error.hookMissingObserves q.1) ∧
      (prepare s).2.1.services = s.services ∧
      (prepare s).2.1.actions = s.actions ∧
      (prepare s).2.1.prepared = false := by
  obtain ⟨obs2, hscan⟩ := scanHooks_fail s.catalog.hooks q hq s.observers
  simp [prepare, hp, hscan]

/-- C7: during `stop()`, each registered service's publicly-exposed
instance is removed from the public `services` mapping before that
service container's `stop` is invoked — the trace restricted to the
events concerning alias `a` is exactly the `unexpose` followed by the
`stop` invocation — and the alias is absent from the surface afterwards,
with no assumption on whether the service's stop resolves or rejects. -/
theorem c7_unexpose_before_stop (s : AtlasState) (a : String) (c : Component)
    (hStop : noParStopFailures s.catalog = true)
    (hmem : (a, c) ∈ s.catalog.services)
    (hnd : (aliases s.catalog.services).Nodup) :
    a ∉ (stop s).2.1.services ∧
      shutdownEventsFor a (stop s).1 =
        [Event.unexpose "services" a, Event.stopCall "service" a] := by
  have hrun := stop_run s hStop
  have hma : a ∈ aliases s.catalog.services := by
    simp only [aliases, List.mem_map]
    exact ⟨(a, c), hmem, rfl⟩
  constructor
  · rw [hrun]
    exact not_mem_foldl_erase _ _ (by rwa [aliases_reverse, List.mem_reverse])
  · rw [hrun]
    simp only [shutdownEventsFor_append, shutdownEventsFor_dispatch, taggedMap_stop,
      shutdownEventsFor_map_stopCall _ "hook" (by decide),
      shutdownEventsFor_map_stopCall _ "action" (by decide),
      shutdownEventsFor_stopLoopTrace a s.catalog.services.reverse
        (by rwa [aliases_reverse, List.mem_reverse])
        (by rw [aliases_reverse]; exact List.nodup_reverse.mpr hnd)]
    simp [shutdownEventsFor]

/-- C8: the `afterStop` lifecycle event dispatched at the end of
`stop()` targets the full hook catalog directly — every registered hook,
observer or not, receives it — whereas the other lifecycle events such
as `beforeStop` are dispatched to the curated observer registry. -/
theorem c8_afterStop_targets_hooks (s : AtlasState)
    (hStop : noParStopFailures s.catalog = true) :
    dispatchedTo "afterStop" (stop s).1 = aliases s.catalog.hooks ∧
      dispatchedTo "beforeStop" (stop s).1 = aliases s.observers := by
  rw [stop_run s hStop]
  constructor
  · simp only [dispatchedTo_append,
      dispatchedTo_dispatch_ne "afterStop" "beforeStop" (by decide),
      taggedMap_stop, dispatchedTo_map_stopCall, dispatchedTo_stopLoopTrace,
      dispatchedTo_dispatch_same]
    simp [dispatchedTo]
  · simp only [dispatchedTo_append, dispatchedTo_dispatch_same,
      dispatchedTo_dispatch_ne "beforeStop" "afterStop" (by decide),
      taggedMap_stop, dispatchedTo_map_stopCall, dispatchedTo_stopLoopTrace]
    simp [dispatchedTo]

/-- C9: unlike `prepare()`, `start()` has no guard on the `started`
flag: invoked on an orchestrator that is already prepared and started it
does not short-circuit — only the inner `prepare()` call does (no
container `prepare` is invoked) — and it dispatches `beforeStart` and
`afterStart` to the observers again and invokes `start` on every hook,
action and service container again. -/
theorem c9_start_no_guard (s : AtlasState)
    (hprep : s.prepared = true) (_hstarted : s.started = true)
    (hPS : noParStartFailures s.catalog = true)
    (hSS : noServiceStartFailures s.catalog = true) :
    (start s).2.2 = none ∧
      prepareCalls (start s).1 = [] ∧
      startCallsOf "hook" (start s).1 = aliases s.catalog.hooks ∧
      startCallsOf "action" (start s).1 = aliases s.catalog.actions ∧
      startCallsOf "service" (start s).1 = aliases s.catalog.services ∧
      dispatchedTo "beforeStart" (start s).1 = aliases s.observers ∧
      dispatchedTo "afterStart" (start s).1 = aliases s.observers := by
  have hprepeq := prepare_of_prepared s hprep
  have hPar : parStart (taggedHookActions s.catalog) =
      ((taggedHookActions s.catalog).map (fun q => Event.startCall q.1 q.2.1), none) :=
    parStart_ok _ (tagged_all_start _ hPS)
  have hLoop := startServicesLoop_ok s s.catalog.services hSS
  have hstart : start s =
      (dispatch s.observers "beforeStart" ++
         (taggedHookActions s.catalog).map (fun q => Event.startCall q.1 q.2.1) ++
         serviceLoopTrace s.catalog.services ++
         dispatch s.observers "afterStart" ++ [Event.logInfo "atlas:ready"],
       { s with started := true }, none) := by
    simp [start, hprepeq, hPar, hLoop]
  rw [hstart]
  refine ⟨rfl, ?_, ?_, ?_, ?_, ?_, ?_⟩
  · simp only [prepareCalls_append, prepareCalls_dispatch, taggedMap_start,
      prepareCalls_map_startCall, prepareCalls_serviceLoopTrace]
    simp [prepareCalls]
  · simp only [startCallsOf_append, startCallsOf_dispatch, taggedMap_start,
      startCallsOf_map_same, startCallsOf_map_ne "hook" "action" (by decide),
      startCallsOf_serviceLoopTrace_ne "hook" (by decide)]
    simp [startCallsOf]
  · simp only [startCallsOf_append, startCallsOf_dispatch, taggedMap_start,
      startCallsOf_map_same, startCallsOf_map_ne "action" "hook" (by decide),
      startCallsOf_serviceLoopTrace_ne "action" (by decide)]
    simp [startCallsOf]
  · simp only [startCallsOf_append, startCallsOf_dispatch, taggedMap_start,
      startCallsOf_map_ne "service" "hook" (by decide),
      startCallsOf_map_ne "service" "action" (by decide),
      startCallsOf_serviceLoopTrace]
    simp [startCallsOf]
  · simp only [dispatchedTo_append, dispatchedTo_dispatch_same,
      dispatchedTo_dispatch_ne "beforeStart" "afterStart" (by decide),
      taggedMap_start, dispatchedTo_map_startCall, dispatchedTo_serviceLoopTrace]
    simp [dispatchedTo]
  · simp only [dispatchedTo_append, dispatchedTo_dispatch_same,
      dispatchedTo_dispatch_ne "afterStart" "beforeStart" (by decide),
      taggedMap_start, dispatchedTo_map_startCall, dispatchedTo_serviceLoopTrace]
    simp [dispatchedTo]

/-- C10: `stop()` has no precondition on orchestrator state: on a fresh,
never-prepared orchestrator it is not rejected — it dispatches
`beforeStop` to the (then empty) observer registry, invokes `stop` on
every registered hook, action and service container (services in
reverse registration order), leaves `prepared` and `started` false,
dispatches `afterStop` to the hook catalog, and resolves with the
orchestrator. -/
theorem c10_stop_unprepared (c : Catalog)
    (hPar : noParStopFailures c = true) (hSvc : noServiceStopFailures c = true) :
    (stop (AtlasState.init c)).2.2 = none ∧
      dispatchedTo "beforeStop" (stop (AtlasState.init c)).1 = [] ∧
      stopCallsOf "hook" (stop (AtlasState.init c)).1 = aliases c.hooks ∧
      stopCallsOf "action" (stop (AtlasState.init c)).1 = aliases c.actions ∧
      stopCallsOf "service" (stop (AtlasState.init c)).1 = (aliases c.services).reverse ∧
      (stop (AtlasState.init c)).2.1.prepared = false ∧
      (stop (AtlasState.init c)).2.1.started = false ∧
      dispatchedTo "afterStop" (stop (AtlasState.init c)).1 = aliases c.hooks := by
  have hrun := stop_run (AtlasState.init c) hPar
  rw [hrun]
  refine ⟨?_, ?_, ?_, ?_, ?_, rfl, rfl, ?_⟩
  · rw [retainedError_eq, List.reverse_reverse]
    rw [List.find?_eq_none.mpr (by
      intro x hx
      simp only [noServiceStopFailures, List.all_eq_true] at hSvc
      simpa using hSvc x hx)]
    rfl
  · simp only [dispatchedTo_append, taggedMap_stop, dispatchedTo_map_stopCall,
      dispatchedTo_stopLoopTrace,
      dispatchedTo_dispatch_ne "beforeStop" "afterStop" (by decide)]
    simp [dispatchedTo, dispatch, AtlasState.init]
  · simp only [dispatchedTo_append, taggedMap_stop, stopCallsOf_append,
      stopCallsOf_dispatch, stopCallsOf_map_same,
      stopCallsOf_map_ne "hook" "action" (by decide),
      stopCallsOf_stopLoopTrace_ne "hook" (by decide)]
    simp [stopCallsOf, AtlasState.init]
  · simp only [stopCallsOf_append, stopCallsOf_dispatch, taggedMap_stop,
      stopCallsOf_map_same, stopCallsOf_map_ne "action" "hook" (by decide),
      stopCallsOf_stopLoopTrace_ne "action" (by decide)]
    simp [stopCallsOf, AtlasState.init]
  · simp only [stopCallsOf_append, stopCallsOf_dispatch, taggedMap_stop,
      stopCallsOf_map_ne "service" "hook" (by decide),
      stopCallsOf_map_ne "service" "action" (by decide),
      stopCallsOf_stopLoopTrace, aliases_reverse]
    simp [stopCallsOf, AtlasState.init]
  · simp only [dispatchedTo_append,
      dispatchedTo_dispatch_ne "afterStop" "beforeStop" (by decide),
      taggedMap_stop, dispatchedTo_map_stopCall, dispatchedTo_stopLoopTrace,
      dispatchedTo_dispatch_same]
    simp [dispatchedTo, AtlasState.init]


/-- Witness instantiating `c3_stop_error_retention` on a catalog whose
first and third services fail to stop: the retained error is the first
service's. -/
theorem c3_stop_error_retention_witness :
    (noParStopFailures (AtlasState.init stopFailCat).catalog = true ∧
      (AtlasState.init stopFailCat).catalog.services =
        [] ++ ("A", stopFailing) :: [("B", okComp), ("C", stopFailing)] ∧
      ([] : List Entry).all (fun p => !p.2.stopFails) = true ∧
      stopFailing.stopFails = true) ∧
    (stopCallsOf "service" (stop (AtlasState.init stopFailCat)).1 =
        (aliases (AtlasState.init stopFailCat).catalog.services).reverse ∧
      (stop (AtlasState.init stopFailCat)).2.2 =
        some (Error.componentFailure "stop" "A") ∧
      (∀ x ∈ aliases (AtlasState.init stopFailCat).catalog.services,
        x ∉ (stop (AtlasState.init stopFailCat)).2.1.services) ∧
      (∀ x ∈ aliases (AtlasState.init stopFailCat).catalog.actions,
        x ∉ (stop (AtlasState.init stopFailCat)).2.1.actions) ∧
      dispatchedTo "afterStop" (stop (AtlasState.init stopFailCat)).1 =
        aliases (AtlasState.init stopFailCat).catalog.hooks) :=
  ⟨⟨rfl, rfl, rfl, rfl⟩,
   c3_stop_error_retention (AtlasState.init stopFailCat) []
     [("B", okComp), ("C", stopFailing)] "A" stopFailing rfl rfl rfl rfl⟩

/-- Witness instantiating `c4_prepare_idempotent` on a concrete
catalog. -/
theorem c4_prepare_idempotent_witness :
    (prepare (AtlasState.init sampleCat)).2.2 = none ∧
      prepare (prepare (AtlasState.init sampleCat)).2.1 =
        ([], (prepare (AtlasState.init sampleCat)).2.1, none) :=
  ⟨rfl, c4_prepare_idempotent (AtlasState.init sampleCat) rfl⟩

/-- Witness instantiating `c5_roundtrip` on a concrete catalog. -/
theorem c5_roundtrip_witness :
    ((start (AtlasState.init sampleCat)).2.2 = none ∧
      noParStopFailures sampleCat = true) ∧
    (((AtlasState.init sampleCat).prepared = false ∧
        (AtlasState.init sampleCat).started = false) ∧
      (∀ s' : AtlasState, noParStopFailures s'.catalog = true →
        (stop s').2.1.prepared = false ∧ (stop s').2.1.started = false) ∧
      ((stop (start (AtlasState.init sampleCat)).2.1).2.1.prepared = false ∧
        (stop (start (AtlasState.init sampleCat)).2.1).2.1.started = false ∧
        (stop (start (AtlasState.init sampleCat)).2.1).2.1.services = [] ∧
        (stop (start (AtlasState.init sampleCat)).2.1).2.1.actions = [])) :=
  ⟨⟨rfl, rfl⟩, c5_roundtrip sampleCat rfl rfl⟩

/-- Witness instantiating `c6_missing_observes` on a catalog whose
second hook lacks the `observes` declaration. -/
theorem c6_missing_observes_witness :
    ((AtlasState.init badHookCat).prepared = false ∧
      (AtlasState.init badHookCat).catalog.hooks.find?
          (fun p => p.2.observes.isNone) = some ("X", noObsHook)) ∧
    ((prepare (AtlasState.init badHookCat)).1 = [] ∧
      (prepare (AtlasState.init badHookCat)).2.2 =
        some (Error.hookMissingObserves ("X", noObsHook).1) ∧
      (prepare (AtlasState.init badHookCat)).2.1.services =
        (AtlasState.init badHookCat).services ∧
      (prepare (AtlasState.init badHookCat)).2.1.actions =
        (AtlasState.init badHookCat).actions ∧
      (prepare (AtlasState.init badHookCat)).2.1.prepared = false) :=
  ⟨⟨rfl, rfl⟩,
   c6_missing_observes (AtlasState.init badHookCat) ("X", noObsHook) rfl rfl⟩

/-- Witness instantiating `c7_unexpose_before_stop` on a concrete
catalog, at a service whose stop rejects. -/
theorem c7_unexpose_before_stop_witness :
    (noParStopFailures (AtlasState.init stopFailCat).catalog = true ∧
      ("A", stopFailing) ∈ (AtlasState.init stopFailCat).catalog.services ∧
      (aliases (AtlasState.init stopFailCat).catalog.services).Nodup) ∧
    ("A" ∉ (stop (AtlasState.init stopFailCat)).2.1.services ∧
      shutdownEventsFor "A" (stop (AtlasState.init stopFailCat)).1 =
        [Event.unexpose "services" "A", Event.stopCall "service" "A"]) :=
  ⟨⟨rfl, by decide, by decide⟩,
   c7_unexpose_before_stop (AtlasState.init stopFailCat) "A" stopFailing
     rfl (by decide) (by decide)⟩

/-- Witness instantiating `c8_afterStop_targets_hooks` on a prepared
orchestrator with one observer and one non-observer hook. -/
theorem c8_afterStop_targets_hooks_witness :
    noParStopFailures startedState.catalog = true ∧
    (dispatchedTo "afterStop" (stop startedState).1 = aliases sampleCat.hooks ∧
      dispatchedTo "beforeStop" (stop startedState).1 = aliases [("H", obsHook)]) :=
  ⟨rfl, c8_afterStop_targets_hooks startedState rfl⟩

/-- Witness instantiating `c9_start_no_guard` on an orchestrator that is
already prepared and started. -/
theorem c9_start_no_guard_witness :
    (startedState.prepared = true ∧ startedState.started = true ∧
      noParStartFailures startedState.catalog = true ∧
      noServiceStartFailures startedState.catalog = true) ∧
    ((start startedState).2.2 = none ∧
      prepareCalls (start startedState).1 = [] ∧
      startCallsOf "hook" (start startedState).1 = aliases startedState.catalog.hooks ∧
      startCallsOf "action" (start startedState).1 = aliases startedState.catalog.actions ∧
      startCallsOf "service" (start startedState).1 = aliases startedState.catalog.services ∧
      dispatchedTo "beforeStart" (start startedState).1 = aliases startedState.observers ∧
      dispatchedTo "afterStart" (start startedState).1 = aliases startedState.observers) :=
  ⟨⟨rfl, rfl, rfl, rfl⟩, c9_start_no_guard startedState rfl rfl rfl rfl⟩

/-- Witness instantiating `c10_stop_unprepared` on a freshly constructed
orchestrator. -/
theorem c10_stop_unprepared_witness :
    (noParStopFailures sampleCat = true ∧
      noServiceStopFailures sampleCat = true) ∧
    ((stop (AtlasState.init sampleCat)).2.2 = none ∧
      dispatchedTo "beforeStop" (stop (AtlasState.init sampleCat)).1 = [] ∧
      stopCallsOf "hook" (stop (AtlasState.init sampleCat)).1 =
        aliases sampleCat.hooks ∧
      stopCallsOf "action" (stop (AtlasState.init sampleCat)).1 =
        aliases sampleCat.actions ∧
      stopCallsOf "service" (stop (AtlasState.init sampleCat)).1 =
        (aliases sampleCat.services).reverse ∧
      (stop (AtlasState.init sampleCat)).2.1.prepared = false ∧
      (stop (AtlasState.init sampleCat)).2.1.started = false ∧
      dispatchedTo "afterStop" (stop (AtlasState.init sampleCat)).1 =
        aliases sampleCat.hooks) :=
  ⟨⟨rfl, rfl⟩, c10_stop_unprepared sampleCat rfl rfl⟩
